import Mathlib

/-!
# Shallow embedding of the Postgres large-object stream adapter

This development models `src/lib.rs` of the large-object crate: a stream
adapter turning the remote calls `lo_create`, `lo_unlink`, `lo_open`,
`loread`, `lowrite`, `lo_lseek(64)`, `lo_truncate(64)`, `lo_close` into
read/write/seek semantics.

Remote interaction is modelled by oracles: each operation takes the outcome
the server would produce for its remote call(s) and returns its result
together with the list of remote calls it actually issued, so that theorems
can speak about which calls happen, in which order, and with which
arguments.  Machine integers are modelled as `Int`/`Nat` with explicit
wrapping where the Rust `as` casts wrap.
-/

namespace PgLO

/-- `i32::MAX` as a natural number: `2^31 - 1`. -/
def i32maxNat : Nat := 2 ^ 31 - 1

/-- `i32::MAX` as an integer: `2^31 - 1`. -/
def i32maxInt : Int := 2 ^ 31 - 1

/-- Two's-complement wrap of an integer into the signed 32-bit range,
the semantics of Rust's `as i32` cast on an `i64`/`u64` value. -/
def wrap32 (x : Int) : Int :=
  if x % (2 ^ 32 : Int) < 2 ^ 31 then x % (2 ^ 32 : Int)
  else x % (2 ^ 32 : Int) - 2 ^ 32

/-- Reinterpretation of a signed 64-bit value as unsigned, the semantics of
Rust's `as u64` cast on an `i64` value. -/
def wrapU64 (x : Int) : Nat :=
  (x % (2 ^ 64 : Int)).toNat

/-- Two's-complement wrap of an unsigned 64-bit value into the signed
64-bit range, the semantics of Rust's `as i64` cast on a `u64` value. -/
def wrapI64 (pos : Nat) : Int :=
  if pos < 2 ^ 63 then (pos : Int) else (pos : Int) - 2 ^ 64

/-- The error type of the `postgres` crate's `Result`, restricted to the
shapes this crate produces: an error surfaced from a remote call
(`Error::Db` or a transport failure), or a locally constructed
`Error::Io` with kind `InvalidInput`. -/
inductive PgError where
  | remote (msg : String)
  | ioInvalidInput (msg : String)
deriving DecidableEq, Repr

/-- `std::io::Error` as produced by the `Read`/`Write`/`Seek` impls: either
a locally detected `ErrorKind::InvalidInput`, or a postgres error wrapped
with `ErrorKind::Other` by the `try_io!` macro. -/
inductive IoError where
  | invalidInput (msg : String)
  | other (msg : String)
deriving DecidableEq, Repr

/-- One remote call, with the arguments the Rust code passes to the
prepared statement. -/
inductive RemoteCall where
  | loCreate
  | loUnlink (oid : Nat)
  | loOpen (oid : Nat) (mode : Int)
  | loRead (fd : Int) (cap : Int)
  | loWrite (fd : Int) (chunk : List Nat)
  | loLseek (fd : Int) (offset : Int) (whence : Int)
  | loLseek64 (fd : Int) (offset : Int) (whence : Int)
  | loTruncate (fd : Int) (len : Int)
  | loTruncate64 (fd : Int) (len : Int)
  | loClose (fd : Int)
deriving DecidableEq, Repr

/-- Large object access modes (`Mode` in the source). -/
inductive Mode where
  | read
  | write
  | readWrite
deriving DecidableEq, Repr

/-- `Mode::to_i32`: the flag passed to `lo_open`. -/
def Mode.toI32 : Mode → Int
  | .read => 0x00040000
  | .write => 0x00020000
  | .readWrite => ((Nat.lor 0x00040000 0x00020000 : Nat) : Int)

/-- The `LargeObject` struct, minus the borrowed transaction (an external
collaborator): remote descriptor, negotiated 64-bit capability, and the
`finished` idempotency flag. -/
structure LargeObject where
  fd : Int
  has_64 : Bool
  finished : Bool
deriving DecidableEq, Repr

/-- `create_large_object`: issues `lo_create(0)` and returns the new oid or
the remote failure. -/
def create_large_object (oracle : Except String Nat) :
    Except PgError Nat × List RemoteCall :=
  (match oracle with
   | .ok oid => .ok oid
   | .error e => .error (.remote e),
   [RemoteCall.loCreate])

/-- `delete_large_object`: issues `lo_unlink(oid)` and returns unit or the
remote failure. -/
def delete_large_object (oid : Nat) (oracle : Except String Unit) :
    Except PgError Unit × List RemoteCall :=
  (match oracle with
   | .ok _ => .ok ()
   | .error e => .error (.remote e),
   [RemoteCall.loUnlink oid])

/-- Rust's `str::split('.')`, modelled at the character level: the list of
maximal `'.'`-free segments (an empty input yields one empty segment, as in
Rust). -/
def splitOnDot : List Char → List (List Char)
  | [] => [[]]
  | c :: rest =>
    match splitOnDot rest with
    | [] => []
    | p :: ps => if c = '.' then [] :: p :: ps else (c :: p) :: ps

/-- Accumulator loop of a decimal parse: consume digits, fail on the first
non-digit. -/
def parseNatAux : List Char → Nat → Option Nat
  | [], acc => some acc
  | c :: cs, acc =>
    if c.isDigit then parseNatAux cs (acc * 10 + (c.toNat - 48)) else none

/-- Rust's `str::parse::<i32>` on a version component: an optional sign,
one or more decimal digits, and the signed 32-bit range check (overflow is
a parse error). -/
def parse_i32 (s : List Char) : Option Int :=
  match s with
  | [] => none
  | '+' :: rest =>
    if rest = [] then none
    else (parseNatAux rest 0).bind fun n =>
      if (n : Int) ≤ i32maxInt then some (n : Int) else none
  | '-' :: rest =>
    if rest = [] then none
    else (parseNatAux rest 0).bind fun n =>
      if -(2 ^ 31) ≤ -(n : Int) then some (-(n : Int)) else none
  | _ =>
    (parseNatAux s 0).bind fun n =>
      if (n : Int) ≤ i32maxInt then some (n : Int) else none

/-- The capability negotiation in `open_large_object`: split the server
version string on `.`, parse major and minor, and report 64-bit capability
iff major > 9 or (major = 9 and minor ≥ 3).  `none` models the `unwrap`
panic on a malformed version string (a fatal configuration error, outside
the normal failure conditions). -/
def negotiate_has_64 (version : List Char) : Option Bool :=
  match splitOnDot version with
  | p0 :: p1 :: _ =>
    match parse_i32 p0, parse_i32 p1 with
    | some major, some minor =>
      some (decide (9 < major ∨ (major = 9 ∧ 3 ≤ minor)))
    | _, _ => none
  | _ => none

/-- `open_large_object`: negotiate the capability from the version string,
then issue `lo_open(oid, mode.to_i32())`; on success the handle stores the
returned descriptor, the capability flag and `finished = false`. -/
def open_large_object (version : List Char) (oracle : Except String Int)
    (oid : Nat) (mode : Mode) :
    Option (Except PgError LargeObject × List RemoteCall) :=
  match negotiate_has_64 version with
  | none => none
  | some h64 =>
    some (match oracle with
          | .error e => (.error (.remote e), [RemoteCall.loOpen oid mode.toI32])
          | .ok fd => (.ok ⟨fd, h64, false⟩, [RemoteCall.loOpen oid mode.toI32]))

/-- `io::Read::read`: request `min(buf.len(), i32::MAX)` bytes via
`loread`; on success copy the returned bytes into the front of the buffer
(`buf.write(bytes)` on a byte slice copies `min` of the two lengths) and
return the number copied.  Returns the updated buffer as well. -/
def read (lo : LargeObject) (buf : List Nat) (oracle : Except String (List Nat)) :
    Except IoError Nat × List Nat × List RemoteCall :=
  let cap : Nat := min buf.length i32maxNat
  match oracle with
  | .error e => (.error (.other e), buf, [RemoteCall.loRead lo.fd (cap : Int)])
  | .ok bytes =>
    let n := min buf.length bytes.length
    (.ok n, bytes.take n ++ buf.drop n, [RemoteCall.loRead lo.fd (cap : Int)])

/-- `io::Write::write`: send the first `min(buf.len(), i32::MAX)` bytes in
one `lowrite` call and report that count, or return the wrapped remote
failure. -/
def write (lo : LargeObject) (buf : List Nat) (oracle : Except String Unit) :
    Except IoError Nat × List RemoteCall :=
  let cap : Nat := min buf.length i32maxNat
  match oracle with
  | .error e => (.error (.other e), [RemoteCall.loWrite lo.fd (buf.take cap)])
  | .ok _ => (.ok cap, [RemoteCall.loWrite lo.fd (buf.take cap)])

/-- The chunking induced by repeated `write` calls: successive slices of at
most `i32::MAX` bytes. -/
def chunksOf (buf : List Nat) : List (List Nat) :=
  if h : buf = [] then []
  else
    buf.take (min buf.length i32maxNat) ::
      chunksOf (buf.drop (min buf.length i32maxNat))
termination_by buf.length
decreasing_by
  have hb : 0 < buf.length := List.length_pos.mpr h
  have : 0 < min buf.length i32maxNat := by
    refine lt_min hb ?_
    simp [i32maxNat]
  simp only [List.length_drop]
  omega

/-- Modelled from the spec: the `write(buffer) -> unit` operation, i.e. the
standard library `write_all` driver loop (code outside this repository)
running over this crate's `io::Write::write`.  It repeatedly calls `write`
on the remaining buffer, advancing by the count `write` reports (which is
`min(remaining, i32::MAX)`), and returns the first error unchanged.  The
oracle gives the server's answer to the `n`-th `lowrite` call. -/
def write_all (lo : LargeObject) (oracle : Nat → Except String Unit)
    (buf : List Nat) : Except IoError Unit × List RemoteCall :=
  if h : buf = [] then (.ok (), [])
  else
    let n : Nat := min buf.length i32maxNat
    match write lo buf (oracle 0) with
    | (.error e, tr) => (.error e, tr)
    | (.ok _, tr) =>
      let rest := write_all lo (fun j => oracle (j + 1)) (buf.drop n)
      (rest.1, tr ++ rest.2)
termination_by buf.length
decreasing_by
  have hb : 0 < buf.length := List.length_pos.mpr h
  have : 0 < min buf.length i32maxNat := by
    refine lt_min hb ?_
    simp [i32maxNat]
  simp only [List.length_drop]
  omega

/-- `truncate`: on a 64-bit-capable handle issue `lo_truncate64` with the
length unchanged; otherwise check `len <= i32::MAX` (upper bound only),
issue `lo_truncate` with `len as i32`, or fail locally with
`ErrorKind::InvalidInput` and no remote call. -/
def truncate (lo : LargeObject) (len : Int) (oracle : Except String Unit) :
    Except PgError Unit × List RemoteCall :=
  if lo.has_64 then
    (match oracle with
     | .ok _ => .ok ()
     | .error e => .error (.remote e),
     [RemoteCall.loTruncate64 lo.fd len])
  else
    if len ≤ i32maxInt then
      (match oracle with
       | .ok _ => .ok ()
       | .error e => .error (.remote e),
       [RemoteCall.loTruncate lo.fd (wrap32 len)])
    else
      (.error (.ioInvalidInput
        "The database does not support objects larger than 2GB"), [])

/-- `finish_inner`: if already finished do nothing and succeed; otherwise
set the flag (before the remote call, so even a failed close marks the
handle finished) and issue `lo_close(fd)`. -/
def finish_inner (lo : LargeObject) (oracle : Except String Unit) :
    Except PgError Unit × LargeObject × List RemoteCall :=
  if lo.finished then (.ok (), lo, [])
  else
    let lo2 := { lo with finished := true }
    match oracle with
    | .ok _ => (.ok (), lo2, [RemoteCall.loClose lo.fd])
    | .error e => (.error (.remote e), lo2, [RemoteCall.loClose lo.fd])

/-- `finish`: the explicit consuming close; identical to `finish_inner`
and returns its error to the caller. -/
def finish (lo : LargeObject) (oracle : Except String Unit) :
    Except PgError Unit × LargeObject × List RemoteCall :=
  finish_inner lo oracle

/-- The `Drop` impl: `let _ = self.finish_inner();` — same close logic,
result discarded, so the return type has no error channel at all. -/
def drop_large_object (lo : LargeObject) (oracle : Except String Unit) :
    LargeObject × List RemoteCall :=
  ((finish_inner lo oracle).2.1, (finish_inner lo oracle).2.2)

/-- A close-path event on a handle: an explicit `finish` call or the
automatic cleanup on drop. -/
inductive CloseEvent where
  | finishCall
  | dropCall
deriving DecidableEq, Repr

/-- Run a sequence of finish/drop events on a handle.  Returns the final
handle state and, per event, the result observable by the surrounding
control flow (for a drop that is always `ok`, the error being swallowed)
and the remote calls the event issued. -/
def run_close_events (oracle : Except String Unit) (lo : LargeObject) :
    List CloseEvent → LargeObject × List (Except PgError Unit × List RemoteCall)
  | [] => (lo, [])
  | e :: es =>
    let step : Except PgError Unit × LargeObject × List RemoteCall :=
      match e with
      | .finishCall => finish lo oracle
      | .dropCall =>
        (.ok (), (drop_large_object lo oracle).1, (drop_large_object lo oracle).2)
    let rest := run_close_events oracle step.2.1 es
    (rest.1, (step.1, step.2.2) :: rest.2)

/-- `io::SeekFrom`: `Start` carries a `u64`, `Current` and `End` an `i64`. -/
inductive SeekFrom where
  | start (pos : Nat)
  | current (pos : Int)
  | fromEnd (pos : Int)
deriving DecidableEq, Repr

/-- The whence/offset mapping at the top of `io::Seek::seek`.  For `Start`
the source compares `pos <= i64::max_value as u64`: the *function item*
`i64::max_value` cast to its code address (the call parentheses are
missing), so the bound is the address of that function, modelled here as
the parameter `addr_of_i64_max_value`.  Offsets above it are rejected with
`ErrorKind::InvalidInput`; offsets at most it are cast with `as i64`. -/
def seek_kind_pos (addr_of_i64_max_value : Nat) :
    SeekFrom → Except IoError (Int × Int)
  | .start pos =>
    if pos ≤ addr_of_i64_max_value then .ok (0, wrapI64 pos)
    else .error (.invalidInput "cannot seek more than 2^63 bytes")
  | .current pos => .ok (1, pos)
  | .fromEnd pos => .ok (2, pos)

/-- `io::Seek::seek`: map the origin to a whence code and offset, then
dispatch on the capability: `lo_lseek64` with the offset unchanged, or —
after checking only `pos <= i32::MAX` — `lo_lseek` with `pos as i32`.
The returned position is the server's answer cast back to `u64`. -/
def seek (addr_of_i64_max_value : Nat) (lo : LargeObject) (sf : SeekFrom)
    (oracle : Except String Int) : Except IoError Nat × List RemoteCall :=
  match seek_kind_pos addr_of_i64_max_value sf with
  | .error e => (.error e, [])
  | .ok (kind, pos) =>
    if lo.has_64 then
      match oracle with
      | .error e => (.error (.other e), [RemoteCall.loLseek64 lo.fd pos kind])
      | .ok newpos =>
        (.ok (wrapU64 newpos), [RemoteCall.loLseek64 lo.fd pos kind])
    else
      if pos ≤ i32maxInt then
        match oracle with
        | .error e => (.error (.other e), [RemoteCall.loLseek lo.fd (wrap32 pos) kind])
        | .ok newpos =>
          (.ok (wrapU64 (wrap32 newpos)), [RemoteCall.loLseek lo.fd (wrap32 pos) kind])
      else
        (.error (.invalidInput "cannot seek more than 2^31 bytes"), [])

/-! ## Supporting lemmas -/

/-- Unfolding `chunksOf` on a nonempty buffer. -/
theorem chunksOf_cons (buf : List Nat) (h : buf ≠ []) :
    chunksOf buf =
      buf.take (min buf.length i32maxNat) ::
        chunksOf (buf.drop (min buf.length i32maxNat)) := by
  rw [chunksOf, dif_neg h]

/-- Concatenating the chunks gives back the buffer. -/
theorem chunksOf_flatten (buf : List Nat) : (chunksOf buf).flatten = buf := by
  induction buf using chunksOf.induct with
  | case1 => simp [chunksOf]
  | case2 buf h ih =>
    rw [chunksOf_cons buf h]
    simp [ih]

/-- Every chunk is at most `i32::MAX = 2^31 - 1` bytes long. -/
theorem chunksOf_size_le (buf : List Nat) :
    ∀ c ∈ chunksOf buf, c.length ≤ 2 ^ 31 - 1 := by
  induction buf using chunksOf.induct with
  | case1 => simp [chunksOf]
  | case2 buf h ih =>
    rw [chunksOf_cons buf h]
    intro c hc
    rcases List.mem_cons.mp hc with rfl | hc
    · simp only [List.length_take, i32maxNat]
      omega
    · exact ih c hc

/-- A single `write` call: one `lowrite` of the first
`min(buf.len(), i32::MAX)` bytes, reporting that count on success. -/
theorem write_cases (lo : LargeObject) (buf : List Nat) (orc : Except String Unit) :
    write lo buf orc =
      (match orc with
       | .ok _ => .ok (min buf.length i32maxNat)
       | .error e => .error (.other e),
       [RemoteCall.loWrite lo.fd (buf.take (min buf.length i32maxNat))]) := by
  cases orc <;> rfl

/-- `write_all` on the empty buffer issues no call. -/
theorem write_all_nil (lo : LargeObject) (oracle : Nat → Except String Unit) :
    write_all lo oracle [] = (.ok (), []) := by
  rw [write_all]
  simp

/-- One step of `write_all` on a nonempty buffer. -/
theorem write_all_cons (lo : LargeObject) (oracle : Nat → Except String Unit)
    (buf : List Nat) (h : buf ≠ []) :
    write_all lo oracle buf =
      match oracle 0 with
      | .error e =>
        (.error (.other e),
          [RemoteCall.loWrite lo.fd (buf.take (min buf.length i32maxNat))])
      | .ok _ =>
        ((write_all lo (fun j => oracle (j + 1)) (buf.drop (min buf.length i32maxNat))).1,
          RemoteCall.loWrite lo.fd (buf.take (min buf.length i32maxNat)) ::
            (write_all lo (fun j => oracle (j + 1)) (buf.drop (min buf.length i32maxNat))).2) := by
  rw [write_all, dif_neg h]
  cases horc : oracle 0 <;> simp [write_cases, horc]

/-- `wrap32` is the identity exactly on the signed 32-bit range. -/
theorem wrap32_eq_of_range (x : Int) (h1 : -(2 ^ 31) ≤ x) (h2 : x ≤ 2 ^ 31 - 1) :
    wrap32 x = x := by
  unfold wrap32
  have hm := Int.emod_emod_of_dvd x (by norm_num : (2 ^ 32 : Int) ∣ 2 ^ 32)
  have h0 : (0 : Int) ≤ x % (2 ^ 32 : Int) := Int.emod_nonneg x (by norm_num)
  have h3 : x % (2 ^ 32 : Int) < 2 ^ 32 := Int.emod_lt_of_pos x (by norm_num)
  have h4 : x % (2 ^ 32 : Int) = x ∨ x % (2 ^ 32 : Int) = x + 2 ^ 32 := by
    omega
  split <;> omega

/-- Once a handle is finished, any further finish/drop events leave the
state unchanged, issue no remote call, and observably succeed. -/
theorem run_close_events_finished (oracle : Except String Unit)
    (lo : LargeObject) (hfin : lo.finished = true) (es : List CloseEvent) :
    run_close_events oracle lo es =
      (lo, es.map fun _ => (Except.ok (), ([] : List RemoteCall))) := by
  induction es with
  | nil => rfl
  | cons e es ih =>
    cases e <;>
      simp [run_close_events, finish, finish_inner, drop_large_object, hfin, ih]

/-! ## Claim theorems -/

/-- C2: for every handle and every nonempty sequence of finish/drop events
starting from an unfinished handle, the remote close is issued exactly once:
the flattened trace of all events is the single `lo_close`, the first event
issues it (and flips `finished` to `true`, as the final state shows), and
every later event issues no remote call and observably succeeds. -/
theorem close_issued_exactly_once (res : Except String Unit) (fd : Int)
    (h64 : Bool) (e : CloseEvent) (es : List CloseEvent) :
    (run_close_events res ⟨fd, h64, false⟩ (e :: es)).1.finished = true ∧
    ((run_close_events res ⟨fd, h64, false⟩ (e :: es)).2.map Prod.snd).flatten =
      [RemoteCall.loClose fd] ∧
    ((run_close_events res ⟨fd, h64, false⟩ (e :: es)).2.head?.map Prod.snd =
      some [RemoteCall.loClose fd]) ∧
    (∀ out ∈ (run_close_events res ⟨fd, h64, false⟩ (e :: es)).2.tail,
      out.1 = .ok () ∧ out.2 = []) := by
  have hrest := run_close_events_finished res ⟨fd, h64, true⟩ rfl es
  cases e <;> cases res <;>
    simp_all [run_close_events, finish, finish_inner, drop_large_object,
      List.mem_map]

/-- Witness for C2 at a concrete finish-then-drop sequence. -/
theorem close_issued_exactly_once_witness :
    ((run_close_events (.ok ()) ⟨5, true, false⟩
        [CloseEvent.finishCall, CloseEvent.dropCall]).2.map Prod.snd).flatten =
      [RemoteCall.loClose 5] :=
  (close_issued_exactly_once (.ok ()) 5 true .finishCall [.dropCall]).2.1

/-- C5: opening a handle parses the version string split on `.`; whenever
the split yields at least a major and a minor component that parse as
integers, the open succeeds and the handle stores, immutably, the 64-bit
capability flag which is `true` iff major > 9 or (major = 9 and minor ≥ 3);
the only state-changing operation (`finish_inner`) preserves the flag. -/
theorem open_negotiates_capability (version p0 p1 : List Char)
    (rest : List (List Char)) (major minor : Int) (oid : Nat) (mode : Mode)
    (fd : Int) (hsplit : splitOnDot version = p0 :: p1 :: rest)
    (hp0 : parse_i32 p0 = some major) (hp1 : parse_i32 p1 = some minor) :
    open_large_object version (.ok fd) oid mode =
      some (.ok ⟨fd, decide (9 < major ∨ (major = 9 ∧ 3 ≤ minor)), false⟩,
        [RemoteCall.loOpen oid mode.toI32]) ∧
    (decide (9 < major ∨ (major = 9 ∧ 3 ≤ minor)) = true ↔
      (9 < major ∨ (major = 9 ∧ 3 ≤ minor))) ∧
    (∀ lo orc, ((finish_inner lo orc).2.1).has_64 = lo.has_64) := by
  refine ⟨?_, by simp, ?_⟩
  · unfold open_large_object negotiate_has_64
    rw [hsplit]
    simp [hp0, hp1]
  · intro lo orc
    unfold finish_inner
    split
    · rfl
    · cases orc <;> rfl

/-- Witness for C5 on the version string `9.3.5`. -/
theorem open_negotiates_capability_witness :
    open_large_object "9.3.5".toList (.ok 3) 42 .readWrite =
      some (.ok ⟨3, true, false⟩, [RemoteCall.loOpen 42 (Mode.toI32 .readWrite)]) := by
  have h := open_negotiates_capability "9.3.5".toList "9".toList "3".toList
    ["5".toList] 9 3 42 .readWrite 3 (by decide) (by decide) (by decide)
  exact h.1

/-- C7: automatic cleanup (the `Drop` impl) runs the same close logic as
`finish` — identical final state and identical remote calls for every close
outcome — but its return type has no error channel at all, while `finish`
on an unfinished handle returns exactly the close outcome to the caller. -/
theorem drop_swallows_close_errors (res : Except String Unit) (lo : LargeObject) :
    drop_large_object lo res = ((finish lo res).2.1, (finish lo res).2.2) ∧
    (lo.finished = false →
      (finish lo res).1 =
        match res with
        | .ok _ => .ok ()
        | .error e => .error (.remote e)) := by
  refine ⟨rfl, fun hfin => ?_⟩
  unfold finish finish_inner
  simp only [hfin, Bool.false_eq_true, if_false]
  cases res <;> rfl

/-- Witness for C7 at a failing close. -/
theorem drop_swallows_close_errors_witness :
    drop_large_object ⟨7, false, false⟩ (.error "boom") =
      ((finish ⟨7, false, false⟩ (.error "boom")).2.1,
        (finish ⟨7, false, false⟩ (.error "boom")).2.2) ∧
    (finish ⟨7, false, false⟩ (.error "boom")).1 = .error (.remote "boom") := by
  have h := drop_swallows_close_errors (.error "boom") ⟨7, false, false⟩
  exact ⟨h.1, h.2 rfl⟩

/-- C8: the mode flags passed to the remote open call are
`Read = 0x00040000`, `Write = 0x00020000`, `ReadWrite = 0x00060000` (both
bits set); `Write` and `ReadWrite` are not collapsed, and every successful
or failed open issues exactly the remote open call with the mode flag
passed through unchanged. -/
theorem open_mode_flags :
    Mode.toI32 .read = 0x00040000 ∧
    Mode.toI32 .write = 0x00020000 ∧
    Mode.toI32 .readWrite = 0x00060000 ∧
    Mode.toI32 .write ≠ Mode.toI32 .readWrite ∧
    ∀ version oracle oid mode result trace,
      open_large_object version oracle oid mode = some (result, trace) →
      trace = [RemoteCall.loOpen oid (Mode.toI32 mode)] := by
  refine ⟨by decide, by decide, by decide, by decide, ?_⟩
  intro version oracle oid mode result trace h
  unfold open_large_object at h
  cases hneg : negotiate_has_64 version with
  | none => rw [hneg] at h; cases h
  | some h64 =>
    rw [hneg] at h
    cases oracle <;> simp_all

/-- Witness for C8 at a concrete open. -/
theorem open_mode_flags_witness :
    [RemoteCall.loOpen 42 393216] = [RemoteCall.loOpen 42 (Mode.toI32 .readWrite)] :=
  (open_mode_flags.2.2.2.2 "9.4".toList (.ok 3) 42 .readWrite (.ok ⟨3, true, false⟩)
    [RemoteCall.loOpen 42 393216] rfl).symm

/-- C3 (amended): on a non-64-bit handle, for any origin mapping to whence
`kind` and offset `pos`, an offset above `2^31 - 1` fails with the local
`InvalidInput` error and no remote call; an offset at most `2^31 - 1` issues
the 32-bit remote seek with the offset wrapped by the `as i32` cast, and for
offsets inside `[-2^31, 2^31 - 1]` the wrap is the identity, so in-range
offsets are passed unchanged (offsets below `-2^31` are wrapped, not
rejected). -/
theorem seek_32bit_range (addr : Nat) (lo : LargeObject) (sf : SeekFrom)
    (kind pos : Int) (oracle : Except String Int) (h64 : lo.has_64 = false)
    (hkp : seek_kind_pos addr sf = .ok (kind, pos)) :
    (2 ^ 31 - 1 < pos →
      seek addr lo sf oracle =
        (.error (.invalidInput "cannot seek more than 2^31 bytes"), [])) ∧
    (pos ≤ 2 ^ 31 - 1 →
      (seek addr lo sf oracle).2 = [RemoteCall.loLseek lo.fd (wrap32 pos) kind]) ∧
    (-(2 ^ 31) ≤ pos → pos ≤ 2 ^ 31 - 1 → wrap32 pos = pos) := by
  refine ⟨?_, ?_, fun h1 h2 => wrap32_eq_of_range pos h1 h2⟩
  · intro hgt
    unfold seek
    rw [hkp]
    simp only [h64, Bool.false_eq_true, if_false]
    rw [if_neg (by simp only [i32maxInt]; omega)]
  · intro hle
    unfold seek
    rw [hkp]
    simp only [h64, Bool.false_eq_true, if_false]
    rw [if_pos (by simp only [i32maxInt]; omega)]
    cases oracle <;> rfl

/-- Witness for the amended C3 at an in-range offset. -/
theorem seek_32bit_range_witness :
    (seek 0 ⟨7, false, false⟩ (.current 5) (.ok 9)).2 =
      [RemoteCall.loLseek 7 (wrap32 5) 1] :=
  (seek_32bit_range 0 ⟨7, false, false⟩ (.current 5) 1 5 (.ok 9) rfl rfl).2.1
    (by decide)

/-- C3 counterexample: `Current(-2^31 - 1)` lies outside the signed 32-bit
range, yet the non-64-bit seek does not fail locally: it issues the remote
`lo_lseek` call with the offset wrapped to `2^31 - 1` and succeeds. -/
theorem seek_32bit_below_range_not_rejected :
    (-(2 ^ 31) - 1 : Int) < -(2 ^ 31) ∧
    seek 0 ⟨7, false, false⟩ (.current (-(2 ^ 31) - 1)) (.ok 0) =
      (.ok 0, [RemoteCall.loLseek 7 (2 ^ 31 - 1) 1]) := by
  refine ⟨by decide, ?_⟩
  rfl

/-- C6 (amended): on a non-64-bit handle, a length above `2^31 - 1` fails
with the local `InvalidInput` error and no remote call; a length at most
`2^31 - 1` issues the 32-bit remote truncate with the length wrapped by the
`as i32` cast, which is the identity on `[-2^31, 2^31 - 1]`, so in-range
lengths are passed unchanged (lengths below `-2^31` are wrapped, not
rejected). -/
theorem truncate_32bit_range (lo : LargeObject) (len : Int)
    (oracle : Except String Unit) (h64 : lo.has_64 = false) :
    (2 ^ 31 - 1 < len →
      truncate lo len oracle =
        (.error (.ioInvalidInput
          "The database does not support objects larger than 2GB"), [])) ∧
    (len ≤ 2 ^ 31 - 1 →
      (truncate lo len oracle).2 = [RemoteCall.loTruncate lo.fd (wrap32 len)]) ∧
    (-(2 ^ 31) ≤ len → len ≤ 2 ^ 31 - 1 → wrap32 len = len) := by
  refine ⟨?_, ?_, fun h1 h2 => wrap32_eq_of_range len h1 h2⟩
  · intro hgt
    unfold truncate
    simp only [h64, Bool.false_eq_true, if_false]
    rw [if_neg (by simp only [i32maxInt]; omega)]
  · intro hle
    unfold truncate
    simp only [h64, Bool.false_eq_true, if_false]
    rw [if_pos (by simp only [i32maxInt]; omega)]

/-- Witness for the amended C6 at an in-range length. -/
theorem truncate_32bit_range_witness :
    (truncate ⟨7, false, false⟩ 5 (.ok ())).2 =
      [RemoteCall.loTruncate 7 (wrap32 5)] :=
  (truncate_32bit_range ⟨7, false, false⟩ 5 (.ok ()) rfl).2.1 (by decide)

/-- C6 counterexample: length `-2^31 - 1` lies outside the signed 32-bit
range, yet truncate on a non-64-bit handle does not fail locally: it issues
the remote `lo_truncate` call with the length wrapped to `2^31 - 1` and
succeeds. -/
theorem truncate_below_range_not_rejected :
    (-(2 ^ 31) - 1 : Int) < -(2 ^ 31) ∧
    truncate ⟨7, false, false⟩ (-(2 ^ 31) - 1) (.ok ()) =
      (.ok (), [RemoteCall.loTruncate 7 (2 ^ 31 - 1)]) := by
  refine ⟨by decide, ?_⟩
  rfl

/-- C10 (code bug): for Start-origin seeks the source compares the offset
against `i64::max_value as u64` — the function item cast to its code
address, the call parentheses being missing — rather than against
`i64::MAX`.  On any platform where that address is below `2^63 - 1`, the
offset `2^63 - 1` (which the intended check accepts) is rejected locally
with `InvalidInput` and no remote call is issued. -/
theorem seek_start_compares_function_address (addr : Nat) (lo : LargeObject)
    (oracle : Except String Int) (haddr : addr < 2 ^ 63 - 1) :
    seek addr lo (.start (2 ^ 63 - 1)) oracle =
      (.error (.invalidInput "cannot seek more than 2^63 bytes"), []) := by
  have hk : seek_kind_pos addr (.start (2 ^ 63 - 1)) =
      .error (.invalidInput "cannot seek more than 2^63 bytes") := by
    simp only [seek_kind_pos]
    rw [if_neg (by omega)]
  unfold seek
  rw [hk]

/-- C4: a read requests exactly `min(buffer.length, 2^31 - 1)` bytes in one
remote `loread` call; whenever the server returns at most that many bytes,
they are copied to the front of the buffer and their count is returned —
in particular an empty remote result is returned as count 0, and no
successful remote read ever produces an error. -/
theorem read_copies_and_eof (lo : LargeObject) (buf bytes : List Nat)
    (hlen : bytes.length ≤ min buf.length (2 ^ 31 - 1)) :
    (read lo buf (.ok bytes)).1 = .ok bytes.length ∧
    (read lo buf (.ok bytes)).2.2 =
      [RemoteCall.loRead lo.fd ((min buf.length (2 ^ 31 - 1) : Nat) : Int)] ∧
    (read lo buf (.ok bytes)).2.1 = bytes ++ buf.drop bytes.length ∧
    (bytes = [] → (read lo buf (.ok bytes)).1 = .ok 0) := by
  have hble : bytes.length ≤ buf.length := le_trans hlen (min_le_left _ _)
  have hmin : min buf.length bytes.length = bytes.length := min_eq_right hble
  refine ⟨?_, rfl, ?_, ?_⟩
  · simp [read, hmin]
  · simp [read, hmin]
  · intro hb
    subst hb
    simp [read]

/-- Witness for C4: a 3-byte buffer receiving 2 bytes. -/
theorem read_copies_and_eof_witness :
    (read ⟨7, false, false⟩ [0, 0, 0] (.ok [9, 8])).1 = .ok 2 ∧
    (read ⟨7, false, false⟩ [0, 0, 0] (.ok [9, 8])).2.1 = [9, 8, 0] := by
  have h := read_copies_and_eof ⟨7, false, false⟩ [0, 0, 0] [9, 8] (by decide)
  exact ⟨h.1, h.2.2.1.trans (by decide)⟩

/-- C9: under normal failure conditions — the remote call answering with an
error — every operation other than automatic cleanup returns the failure
synchronously as a typed error value: create, delete, open, read and write
propagate the remote error; truncate, seek and finish return either the
propagated remote error or one of their locally constructed typed errors;
none of them is partial, so no operation panics or aborts. -/
theorem failures_returned_to_caller (e : String) (oid : Nat) (lo : LargeObject)
    (version : List Char) (mode : Mode) (buf : List Nat) (len : Int)
    (sf : SeekFrom) (addr : Nat) :
    (create_large_object (.error e)).1 = .error (.remote e) ∧
    (delete_large_object oid (.error e)).1 = .error (.remote e) ∧
    (∀ h64, negotiate_has_64 version = some h64 →
      open_large_object version (.error e) oid mode =
        some (.error (.remote e), [RemoteCall.loOpen oid (Mode.toI32 mode)])) ∧
    (read lo buf (.error e)).1 = .error (.other e) ∧
    (write lo buf (.error e)).1 = .error (.other e) ∧
    ((truncate lo len (.error e)).1 = .error (.remote e) ∨
      (truncate lo len (.error e)).1 =
        .error (.ioInvalidInput
          "The database does not support objects larger than 2GB")) ∧
    ((seek addr lo sf (.error e)).1 = .error (.other e) ∨
      (seek addr lo sf (.error e)).1 =
        .error (.invalidInput "cannot seek more than 2^63 bytes") ∨
      (seek addr lo sf (.error e)).1 =
        .error (.invalidInput "cannot seek more than 2^31 bytes")) ∧
    ((finish lo (.error e)).1 = .error (.remote e) ∨
      (finish lo (.error e)).1 = .ok ()) := by
  refine ⟨rfl, rfl, ?_, rfl, rfl, ?_, ?_, ?_⟩
  · intro h64 hneg
    unfold open_large_object
    rw [hneg]
  · unfold truncate
    split
    · exact Or.inl rfl
    · split
      · exact Or.inl rfl
      · exact Or.inr rfl
  · cases hkp : seek_kind_pos addr sf with
    | error e2 =>
      have h1 : (seek addr lo sf (.error e)).1 = .error e2 := by
        unfold seek
        rw [hkp]
      cases sf with
      | start pos =>
        simp only [seek_kind_pos] at hkp
        by_cases hp : pos ≤ addr
        · rw [if_pos hp] at hkp
          cases hkp
        · rw [if_neg hp] at hkp
          injection hkp with he2
          right
          left
          rw [h1, ← he2]
      | current pos => simp [seek_kind_pos] at hkp
      | fromEnd pos => simp [seek_kind_pos] at hkp
    | ok kp =>
      obtain ⟨kind, pos⟩ := kp
      have hseek : seek addr lo sf (.error e) =
          (if lo.has_64 then
            (.error (.other e), [RemoteCall.loLseek64 lo.fd pos kind])
          else if pos ≤ i32maxInt then
            (.error (.other e), [RemoteCall.loLseek lo.fd (wrap32 pos) kind])
          else
            (.error (.invalidInput "cannot seek more than 2^31 bytes"), [])) := by
        unfold seek
        rw [hkp]
      rw [hseek]
      split
      · left
        rfl
      · split
        · left
          rfl
        · right
          right
          rfl
  · unfold finish finish_inner
    split
    · exact Or.inr rfl
    · exact Or.inl rfl

/-- Witness for C9: a concrete remote failure surfaced by open and create. -/
theorem failures_returned_to_caller_witness :
    open_large_object "9.2".toList (.error "down") 42 .read =
      some (.error (.remote "down"), [RemoteCall.loOpen 42 (Mode.toI32 .read)]) ∧
    (create_large_object (.error "down")).1 = .error (.remote "down") := by
  have h := failures_returned_to_caller "down" 42 ⟨7, false, false⟩ "9.2".toList
    .read [] 0 (.current 0) 0
  exact ⟨h.2.2.1 false (by decide), h.1⟩

/-- Full characterization of `write_all` by induction on a length bound:
on success the trace is one `lowrite` per chunk in order; on failure the
trace is the successful prefix plus the single failing chunk, the failing
oracle answer is returned wrapped, and no further chunks are sent. -/
theorem write_all_spec (lo : LargeObject) :
    ∀ (N : Nat) (buf : List Nat), buf.length ≤ N →
    ∀ (oracle : Nat → Except String Unit),
    ((write_all lo oracle buf).1 = .ok () →
      (write_all lo oracle buf).2 = (chunksOf buf).map (RemoteCall.loWrite lo.fd)) ∧
    (∀ e0, (write_all lo oracle buf).1 = .error e0 →
      ∃ e k, e0 = IoError.other e ∧ k < (chunksOf buf).length ∧
        oracle k = .error e ∧ (∀ j, j < k → oracle j = .ok ()) ∧
        (write_all lo oracle buf).2 =
          ((chunksOf buf).take (k + 1)).map (RemoteCall.loWrite lo.fd)) := by
  intro N
  induction N with
  | zero =>
    intro buf hlen oracle
    have hb : buf = [] := List.eq_nil_of_length_eq_zero (Nat.le_zero.mp hlen)
    subst hb
    rw [write_all_nil]
    refine ⟨fun _ => by simp [chunksOf], fun e0 h => ?_⟩
    cases h
  | succ N ih =>
    intro buf hlen oracle
    by_cases hb : buf = []
    · subst hb
      rw [write_all_nil]
      refine ⟨fun _ => by simp [chunksOf], fun e0 h => ?_⟩
      cases h
    · have hnpos : 0 < min buf.length i32maxNat := by
        have : 0 < buf.length := List.length_pos.mpr hb
        simp only [i32maxNat]
        omega
      have hdrop : (buf.drop (min buf.length i32maxNat)).length ≤ N := by
        simp only [List.length_drop]
        omega
      rw [write_all_cons lo oracle buf hb, chunksOf_cons buf hb]
      cases horc : oracle 0 with
      | error s =>
        constructor
        · intro h
          cases h
        · intro e0 h
          refine ⟨s, 0, ?_, Nat.succ_pos _, horc,
            fun j hj => absurd hj (Nat.not_lt_zero j), ?_⟩
          · cases h
            rfl
          · simp
      | ok u =>
        cases u
        obtain ⟨ih1, ih2⟩ :=
          ih (buf.drop (min buf.length i32maxNat)) hdrop (fun j => oracle (j + 1))
        constructor
        · intro h
          rw [List.map_cons, ih1 h]
        · intro e0 h
          obtain ⟨e2, k, he0, hk, herr, hpre, htr⟩ := ih2 e0 h
          refine ⟨e2, k + 1, he0, by simpa using Nat.succ_lt_succ hk, herr, ?_, ?_⟩
          · intro j hj
            cases j with
            | zero => exact horc
            | succ j2 => exact hpre j2 (Nat.lt_of_succ_lt_succ hj)
          · simp only [List.take_succ_cons, List.map_cons]
            rw [htr]

/-- C1: the complete write path (the standard `write_all` driver over this
crate's chunking `write`) transmits the entire buffer — one remote `lowrite`
per chunk, every chunk at most `2^31 - 1` bytes, the chunks concatenating
back to the buffer — or returns an error: on the first failing chunk the
wrapped server error is returned immediately and no further chunk is sent,
so a partial write is never silent. -/
theorem write_all_entire_or_fail_fast (lo : LargeObject)
    (oracle : Nat → Except String Unit) (buf : List Nat) :
    ((write_all lo oracle buf).1 = .ok () →
      (write_all lo oracle buf).2 = (chunksOf buf).map (RemoteCall.loWrite lo.fd)) ∧
    (∀ e0, (write_all lo oracle buf).1 = .error e0 →
      ∃ e k, e0 = IoError.other e ∧ k < (chunksOf buf).length ∧
        oracle k = .error e ∧ (∀ j, j < k → oracle j = .ok ()) ∧
        (write_all lo oracle buf).2 =
          ((chunksOf buf).take (k + 1)).map (RemoteCall.loWrite lo.fd)) ∧
    (∀ c ∈ chunksOf buf, c.length ≤ 2 ^ 31 - 1) ∧
    (chunksOf buf).flatten = buf := by
  obtain ⟨h1, h2⟩ := write_all_spec lo buf.length buf le_rfl oracle
  exact ⟨h1, h2, chunksOf_size_le buf, chunksOf_flatten buf⟩

/-- Witness for C1: a successful 3-byte write issues exactly the chunk
trace. -/
theorem write_all_entire_or_fail_fast_witness :
    (write_all ⟨1, true, false⟩ (fun _ => .ok ()) [7, 8, 9]).2 =
      (chunksOf [7, 8, 9]).map (RemoteCall.loWrite 1) :=
  (write_all_entire_or_fail_fast ⟨1, true, false⟩ (fun _ => .ok ()) [7, 8, 9]).1
    (by simp [write_all, write, i32maxNat])

/-- Witness for C10 at a realistic code address. -/
theorem seek_start_compares_function_address_witness :
    seek 4194304 ⟨7, true, false⟩ (.start (2 ^ 63 - 1)) (.ok 0) =
      (.error (.invalidInput "cannot seek more than 2^63 bytes"), []) :=
  seek_start_compares_function_address 4194304 ⟨7, true, false⟩ (.ok 0) (by decide)

end PgLO
